import Mathlib

set_option maxHeartbeats 1000000

namespace FocusOS

/-!
Shallow embedding of the VGA text driver in `src/vga_buffer.rs` of the
focus_os repository.  Machine bytes (`u8` values) are modelled as `Nat`;
the memory-mapped display region is modelled as a total function from
(row, column) indices to character cells, with every volatile cell write
going through `writeCell`.  The stateful `Writer` is modelled by explicit
state passing; `write_byte` additionally reports how many scroll-and-reset
operations it performed and which character cells it wrote directly, so
that per-call effect counts can be stated.
-/

/-- The sixteen VGA hardware colors (`enum Color` in src/vga_buffer.rs). -/
inductive Color where
  | Black
  | Blue
  | Green
  | Cyan
  | Red
  | Magenta
  | Brown
  | LightGray
  | DarkGray
  | LightBlue
  | LightGreen
  | LightCyan
  | LightRed
  | Pink
  | Yellow
  | White
deriving DecidableEq

/-- The `#[repr(u8)]` discriminant assigned to each color in the source. -/
def Color.code : Color → Nat
  | .Black => 0
  | .Blue => 1
  | .Green => 2
  | .Cyan => 3
  | .Red => 4
  | .Magenta => 5
  | .Brown => 6
  | .LightGray => 7
  | .DarkGray => 8
  | .LightBlue => 9
  | .LightGreen => 10
  | .LightCyan => 11
  | .LightRed => 12
  | .Pink => 13
  | .Yellow => 14
  | .White => 15

/-- `ColorCode::new`: pack a background and a foreground color into one
attribute byte, `(background as u8) << 4 | (foreground as u8)`. -/
def ColorCode.new (foreground background : Color) : Nat :=
  Nat.lor (Nat.shiftLeft background.code 4) foreground.code

/-- `ScreenChar`: one character cell, an ASCII byte plus an attribute byte. -/
structure ScreenChar where
  ascii_character : Nat
  color_code : Nat
deriving DecidableEq

def BUFFER_HEIGHT : Nat := 25

def BUFFER_WIDTH : Nat := 80

/-- The display region: a grid of character cells indexed by row then column.
Only indices with row < BUFFER_HEIGHT and col < BUFFER_WIDTH correspond to
real hardware cells. -/
abbrev Buf : Type := Nat → Nat → ScreenChar

/-- A volatile write of one character cell, `self.buffer.chars[row][col].write(c)`. -/
def writeCell (b : Buf) (row col : Nat) (c : ScreenChar) : Buf :=
  fun r k => if r = row ∧ k = col then c else b r k

lemma writeCell_hit (b : Buf) (row col : Nat) (cc : ScreenChar) :
    writeCell b row col cc row col = cc := by
  simp [writeCell]

lemma writeCell_ne_col (b : Buf) (row col : Nat) (cc : ScreenChar) (r k : Nat)
    (h : k ≠ col) :
    writeCell b row col cc r k = b r k := by
  simp [writeCell, h]

/-- `Writer`: current column, current attribute byte, and the display region
it holds write access to. -/
structure Writer where
  column_position : Nat
  color_code : Nat
  buffer : Buf

/-- `Writer::clear_row`: overwrite every cell of `row` with a blank
(ASCII space, current attribute). -/
def Writer.clear_row (w : Writer) (row : Nat) : Writer :=
  let blank : ScreenChar := ⟨0x20, w.color_code⟩
  { w with
    buffer := (List.range BUFFER_WIDTH).foldl
      (fun b col => writeCell b row col blank) w.buffer }

/-- `Writer::new_line` (scroll-and-reset): for each row 1 ≤ row < BUFFER_HEIGHT
copy every cell of `row` into `row - 1` (reading the current, partially
shifted buffer exactly as the source loop does), then clear the bottom row
and reset the column position to 0. -/
def Writer.new_line (w : Writer) : Writer :=
  let w1 : Writer :=
    { w with
      buffer :=
        (List.range' 1 (BUFFER_HEIGHT - 1)).foldl
          (fun b row =>
            (List.range BUFFER_WIDTH).foldl
              (fun b2 col => writeCell b2 (row - 1) col (b2 row col)) b)
          w.buffer }
  let w2 := w1.clear_row (BUFFER_HEIGHT - 1)
  { w2 with column_position := 0 }

/-- Result of one `write_byte` call: the new writer state, the number of
scroll-and-reset operations performed, and the character cells written
directly at the cursor (row, col, cell). -/
structure WriteResult where
  w : Writer
  scrolls : Nat
  cellWrites : List (Nat × Nat × ScreenChar)

/-- `Writer::write_byte`: the byte `b'/'` (0x2f) triggers `new_line` and
nothing is written; any other byte first triggers `new_line` when the
column position has reached BUFFER_WIDTH, then is written at the bottom
row at the current column, and the column advances by one. -/
def Writer.write_byte (w : Writer) (byte : Nat) : WriteResult :=
  if byte = 0x2f then
    ⟨w.new_line, 1, []⟩
  else
    let w1 := if BUFFER_WIDTH ≤ w.column_position then w.new_line else w
    let scrolls : Nat := if BUFFER_WIDTH ≤ w.column_position then 1 else 0
    let row := BUFFER_HEIGHT - 1
    let col := w1.column_position
    let c : ScreenChar := ⟨byte, w1.color_code⟩
    ⟨{ w1 with
        buffer := writeCell w1.buffer row col c,
        column_position := w1.column_position + 1 },
     scrolls, [(row, col, c)]⟩

/-- `Writer::write_string`: forward printable ASCII (0x20–0x7e) and the
newline byte 0x0a unchanged to `write_byte`; forward 0xfe for any other
byte. -/
def Writer.write_string (w : Writer) (s : List Nat) : Writer :=
  s.foldl
    (fun wa byte =>
      if (0x20 ≤ byte ∧ byte ≤ 0x7e) ∨ byte = 0x0a then (wa.write_byte byte).w
      else (wa.write_byte 0xfe).w)
    w

/-- The substitution `write_string` applies to each byte before forwarding
it to `write_byte`. -/
def substByte (byte : Nat) : Nat :=
  if (0x20 ≤ byte ∧ byte ≤ 0x7e) ∨ byte = 0x0a then byte else 0xfe

/-- Iterate `write_byte` over a list of bytes, accumulating the total number
of scroll-and-reset operations performed. -/
def write_bytes (w : Writer) : List Nat → Writer × Nat
  | [] => (w, 0)
  | byte :: rest =>
      let r := w.write_byte byte
      let p := write_bytes r.w rest
      (p.1, r.scrolls + p.2)

/-- The (row, col) buffer indices accessed by `clear_row row`: one write per
column of the fixed loop range. -/
def clear_row_accesses (row : Nat) : List (Nat × Nat) :=
  (List.range BUFFER_WIDTH).map (fun col => (row, col))

/-- The (row, col) buffer indices accessed by `new_line`: for each row of the
loop a read at (row, col) and a write at (row - 1, col), followed by the
accesses of clearing the bottom row. -/
def new_line_accesses : List (Nat × Nat) :=
  ((List.range' 1 (BUFFER_HEIGHT - 1)).flatMap
    (fun row => (List.range BUFFER_WIDTH).flatMap
      (fun col => [(row, col), (row - 1, col)])))
    ++ clear_row_accesses (BUFFER_HEIGHT - 1)

/-- The (row, col) buffer indices accessed by one `write_byte` call. -/
def write_byte_accesses (w : Writer) (byte : Nat) : List (Nat × Nat) :=
  if byte = 0x2f then new_line_accesses
  else
    let pre := if BUFFER_WIDTH ≤ w.column_position then new_line_accesses else []
    let w1 := if BUFFER_WIDTH ≤ w.column_position then w.new_line else w
    pre ++ [(BUFFER_HEIGHT - 1, w1.column_position)]

/-- The machine state shared across `with_writer` calls: the memory-mapped
display region at 0xb8000 and the `WRITER_INITIALIZED` spin::Once flag. -/
structure Machine where
  buffer : Buf
  writerInitialized : Bool

/-- The lazily created global `WRITER` of the source: column 0, LightRed on
Black, bound to the display region. -/
def WRITER (buf : Buf) : Writer :=
  ⟨0, ColorCode.new Color.LightRed Color.Black, buf⟩

/-- The fresh `writer_instance` that `with_writer` constructs on every call:
column 0, Yellow on Black, bound to the display region. -/
def with_writer_instance (m : Machine) : Writer :=
  ⟨0, ColorCode.new Color.Yellow Color.Black, m.buffer⟩

/-- `with_writer`: run the `WRITER_INITIALIZED.call_once` with its empty
closure, construct a fresh `writer_instance`, and invoke the action on it.
Only the display region mutations survive the call; the instance itself
(column position, attribute) is dropped. -/
def with_writer {α : Type} (m : Machine) (f : Writer → Writer × α) : Machine × α :=
  let m1 : Machine := { m with writerInitialized := true }
  let p := f (with_writer_instance m1)
  ({ m1 with buffer := p.1.buffer }, p.2)

/-- A concrete all-blank display region used for concrete evaluations. -/
def blankBuf : Buf := fun _ _ => ⟨0x20, 0x0e⟩

/-- A concrete writer at column 0 with attribute 0x0e over a blank region. -/
def wZero : Writer := ⟨0, 0x0e, blankBuf⟩

/-- A concrete writer whose column position has reached BUFFER_WIDTH. -/
def wFull : Writer := ⟨80, 0x0e, blankBuf⟩

/-- A concrete machine state with a blank display region. -/
def mZero : Machine := ⟨blankBuf, false⟩

/-!
Characterizations of the loops of `clear_row` and `new_line`.
-/

/-- The blanking loop of `clear_row` writes `blank` exactly at row `row`,
columns drawn from the loop list. -/
lemma foldl_clear_cells (row : Nat) (blank : ScreenChar) (l : List Nat) :
    ∀ (b : Buf) (r k : Nat),
      (l.foldl (fun b2 col => writeCell b2 row col blank) b) r k
        = if r = row ∧ k ∈ l then blank else b r k := by
  induction l with
  | nil => intro b r k; simp
  | cons a t ih =>
      intro b r k
      simp only [List.foldl_cons]
      rw [ih]
      by_cases h1 : r = row <;> by_cases h2 : k ∈ t <;> by_cases h3 : k = a <;>
        simp [writeCell, h1, h2, h3]

lemma clear_row_buffer (w : Writer) (row r k : Nat) :
    (w.clear_row row).buffer r k
      = if r = row ∧ k < BUFFER_WIDTH then ⟨0x20, w.color_code⟩ else w.buffer r k := by
  simp only [Writer.clear_row]
  rw [foldl_clear_cells]
  simp [List.mem_range]

lemma clear_row_column (w : Writer) (row : Nat) :
    (w.clear_row row).column_position = w.column_position := rfl

lemma clear_row_color (w : Writer) (row : Nat) :
    (w.clear_row row).color_code = w.color_code := rfl

/-- The inner copying loop of `new_line` for a fixed `row ≥ 1`: it writes the
current contents of row `row` into row `row - 1` at the columns of the loop
list, and touches nothing else.  Reads of row `row` are unaffected by the
writes, which all target row `row - 1`. -/
lemma foldl_copy_cells (row : Nat) (hrow : 1 ≤ row) (l : List Nat) :
    ∀ (b : Buf) (r k : Nat),
      (l.foldl (fun b2 col => writeCell b2 (row - 1) col (b2 row col)) b) r k
        = if r = row - 1 ∧ k ∈ l then b row k else b r k := by
  have hne : row ≠ row - 1 := by omega
  induction l with
  | nil => intro b r k; simp
  | cons a t ih =>
      intro b r k
      simp only [List.foldl_cons]
      rw [ih]
      have hb : (writeCell b (row - 1) a (b row a)) row k = b row k := by
        simp [writeCell, hne]
      by_cases h1 : r = row - 1 <;> by_cases h2 : k ∈ t <;> by_cases h3 : k = a <;>
        simp [writeCell, h1, h2, h3, hne, hb]

/-- The outer loop of `new_line` over rows `1, …, n`: in every column `k` of
the grid it shifts each of the first `n` rows up by one and leaves all other
rows unchanged. -/
lemma foldl_rows (n : Nat) :
    ∀ (b : Buf) (r k : Nat), k < BUFFER_WIDTH →
      ((List.range' 1 n).foldl
        (fun bb row =>
          (List.range BUFFER_WIDTH).foldl
            (fun b2 col => writeCell b2 (row - 1) col (b2 row col)) bb) b) r k
        = if r < n then b (r + 1) k else b r k := by
  induction n with
  | zero => intro b r k hk; simp
  | succ m ih =>
      intro b r k hk
      rw [List.range'_1_concat, List.foldl_append]
      simp only [List.foldl_cons, List.foldl_nil]
      rw [foldl_copy_cells (1 + m) (by omega)]
      rw [ih b r k hk, ih b (1 + m) k hk]
      have e1 : 1 + m - 1 = m := by omega
      have e2 : ¬ (1 + m < m) := by omega
      simp only [e1, if_neg e2, List.mem_range]
      by_cases h1 : r = m
      · subst h1
        have : r < r + 1 := Nat.lt_succ_self r
        simp [hk, this, Nat.add_comm]
      · by_cases h2 : r < m
        · have h3 : r < m + 1 := Nat.lt_succ_of_lt h2
          simp [h1, h2, h3]
        · have h3 : ¬ r < m + 1 := by omega
          simp [h1, h2, h3]

lemma new_line_column (w : Writer) : w.new_line.column_position = 0 := rfl

lemma new_line_color (w : Writer) : w.new_line.color_code = w.color_code := rfl

/-- Full characterization of the buffer produced by `new_line`: each of the
top `BUFFER_HEIGHT - 1` rows receives the old contents of the row below it,
and the bottom row is blanked with the current attribute. -/
lemma new_line_buffer (w : Writer) (r k : Nat) (hk : k < BUFFER_WIDTH) :
    w.new_line.buffer r k
      = if r = BUFFER_HEIGHT - 1 then ⟨0x20, w.color_code⟩
        else if r < BUFFER_HEIGHT - 1 then w.buffer (r + 1) k
        else w.buffer r k := by
  simp only [Writer.new_line]
  rw [clear_row_buffer]
  by_cases h1 : r = BUFFER_HEIGHT - 1
  · simp [h1, hk]
  · simp only [h1, false_and, if_false, ite_false]
    exact foldl_rows (BUFFER_HEIGHT - 1) w.buffer r k hk

/-!
Componentwise behavior of `write_byte`.
-/

lemma write_byte_slash (w : Writer) : w.write_byte 0x2f = ⟨w.new_line, 1, []⟩ := rfl

lemma write_byte_scrolls (w : Writer) (byte : Nat) :
    (w.write_byte byte).scrolls
      = if byte = 0x2f then 1
        else if BUFFER_WIDTH ≤ w.column_position then 1 else 0 := by
  by_cases hb : byte = 0x2f
  · simp [Writer.write_byte, hb]
  · by_cases hc : BUFFER_WIDTH ≤ w.column_position <;>
      simp [Writer.write_byte, hb, hc]

lemma write_byte_cellWrites (w : Writer) (byte : Nat) (hb : byte ≠ 0x2f) :
    (w.write_byte byte).cellWrites
      = [(BUFFER_HEIGHT - 1,
          if BUFFER_WIDTH ≤ w.column_position then 0 else w.column_position,
          ⟨byte, w.color_code⟩)] := by
  by_cases hc : BUFFER_WIDTH ≤ w.column_position <;>
    simp [Writer.write_byte, hb, hc, new_line_column, new_line_color]

lemma write_byte_cellWrites_slash (w : Writer) :
    (w.write_byte 0x2f).cellWrites = [] := rfl

lemma write_byte_column (w : Writer) (byte : Nat) :
    (w.write_byte byte).w.column_position
      = if byte = 0x2f then 0
        else if BUFFER_WIDTH ≤ w.column_position then 1
        else w.column_position + 1 := by
  by_cases hb : byte = 0x2f
  · simp [Writer.write_byte, hb, new_line_column]
  · by_cases hc : BUFFER_WIDTH ≤ w.column_position <;>
      simp [Writer.write_byte, hb, hc, new_line_column]

lemma write_byte_color (w : Writer) (byte : Nat) :
    (w.write_byte byte).w.color_code = w.color_code := by
  by_cases hb : byte = 0x2f
  · simp [Writer.write_byte, hb, new_line_color]
  · by_cases hc : BUFFER_WIDTH ≤ w.column_position <;>
      simp [Writer.write_byte, hb, hc, new_line_color]

lemma write_byte_buffer_small (w : Writer) (byte : Nat) (hb : byte ≠ 0x2f)
    (hc : w.column_position < BUFFER_WIDTH) :
    (w.write_byte byte).w.buffer
      = writeCell w.buffer (BUFFER_HEIGHT - 1) w.column_position ⟨byte, w.color_code⟩ := by
  simp [Writer.write_byte, hb, Nat.not_le.mpr hc]

lemma write_byte_buffer_full (w : Writer) (byte : Nat) (hb : byte ≠ 0x2f)
    (hc : BUFFER_WIDTH ≤ w.column_position) :
    (w.write_byte byte).w.buffer
      = writeCell w.new_line.buffer (BUFFER_HEIGHT - 1) 0 ⟨byte, w.color_code⟩ := by
  simp [Writer.write_byte, hb, hc, new_line_column, new_line_color]

/-- Writing `n` copies of a non-terminator byte while there is room on the
line performs no scroll, advances the column by `n`, and keeps the
attribute byte. -/
lemma write_bytes_replicate (byte : Nat) (hb : byte ≠ 0x2f) :
    ∀ (n : Nat) (w : Writer), w.column_position + n ≤ BUFFER_WIDTH →
      (write_bytes w (List.replicate n byte)).2 = 0 ∧
      (write_bytes w (List.replicate n byte)).1.column_position
        = w.column_position + n ∧
      (write_bytes w (List.replicate n byte)).1.color_code = w.color_code := by
  intro n
  induction n with
  | zero => intro w h; simp [write_bytes]
  | succ m ih =>
      intro w h
      have hc : w.column_position < BUFFER_WIDTH := by omega
      have hnle : ¬ BUFFER_WIDTH ≤ w.column_position := Nat.not_le.mpr hc
      have hs : (w.write_byte byte).scrolls = 0 := by
        rw [write_byte_scrolls]; simp [hb, hnle]
      have hcol : (w.write_byte byte).w.column_position = w.column_position + 1 := by
        rw [write_byte_column]; simp [hb, hnle]
      have hcolor := write_byte_color w byte
      have ihw := ih ((w.write_byte byte).w) (by rw [hcol]; omega)
      simp only [List.replicate_succ, write_bytes]
      refine ⟨by rw [hs, ihw.1], ?_, by rw [ihw.2.2, hcolor]⟩
      rw [ihw.2.1, hcol]
      omega

/-!
Invariant helpers.
-/

lemma write_byte_preserves_column_le (w : Writer) (byte : Nat)
    (h : w.column_position ≤ BUFFER_WIDTH) :
    (w.write_byte byte).w.column_position ≤ BUFFER_WIDTH := by
  rw [write_byte_column]
  simp only [BUFFER_WIDTH] at h ⊢
  split_ifs <;> omega

lemma write_string_preserves_column_le (s : List Nat) :
    ∀ w : Writer, w.column_position ≤ BUFFER_WIDTH →
      (w.write_string s).column_position ≤ BUFFER_WIDTH := by
  induction s with
  | nil => intro w h; simpa [Writer.write_string] using h
  | cons a t ih =>
      intro w h
      simp only [Writer.write_string, List.foldl_cons]
      by_cases hp : (0x20 ≤ a ∧ a ≤ 0x7e) ∨ a = 0x0a
      · simp only [if_pos hp]
        exact ih _ (write_byte_preserves_column_le w a h)
      · simp only [if_neg hp]
        exact ih _ (write_byte_preserves_column_le w 0xfe h)

/-!
Splitting `write_bytes` runs.
-/

lemma write_bytes_append (bs1 bs2 : List Nat) :
    ∀ w : Writer, write_bytes w (bs1 ++ bs2)
      = ((write_bytes (write_bytes w bs1).1 bs2).1,
         (write_bytes w bs1).2 + (write_bytes (write_bytes w bs1).1 bs2).2) := by
  induction bs1 with
  | nil => intro w; simp [write_bytes]
  | cons a t ih =>
      intro w
      simp only [List.cons_append, write_bytes, List.append_eq]
      rw [ih]
      simp [Nat.add_assoc]

/-!
`write_string` as substitution followed by forwarding.
-/

lemma write_string_eq_foldl_subst (s : List Nat) :
    ∀ w : Writer, w.write_string s
      = (s.map substByte).foldl (fun wa byte => (wa.write_byte byte).w) w := by
  induction s with
  | nil => intro w; rfl
  | cons a t ih =>
      intro w
      simp only [Writer.write_string, List.map_cons, List.foldl_cons]
      by_cases hp : (0x20 ≤ a ∧ a ≤ 0x7e) ∨ a = 0x0a
      · simp only [if_pos hp, substByte]
        exact ih _
      · simp only [if_neg hp, substByte]
        exact ih _

lemma map_substByte_getD (s : List Nat) :
    ∀ i : Nat, i < s.length →
      (s.map substByte).getD i 0 = substByte (s.getD i 0) := by
  induction s with
  | nil => intro i hi; simp at hi
  | cons a t ih =>
      intro i hi
      cases i with
      | zero => simp
      | succ j =>
          simp only [List.map_cons, List.getD_cons_succ]
          exact ih j (by simpa using hi)

/-!
The action used in the concrete `with_writer` evaluations: write one byte
`'A'` through the writer handed to the closure. -/
def actWriteA : Writer → Writer × Unit := fun w0 => ((w0.write_byte 0x41).w, ())

/-!
Bounds of the accessed indices (for claim C8).
-/

lemma clear_row_accesses_bound (row : Nat) (hrow : row < BUFFER_HEIGHT) :
    ∀ p ∈ clear_row_accesses row, p.1 < BUFFER_HEIGHT ∧ p.2 < BUFFER_WIDTH := by
  intro p hp
  simp only [clear_row_accesses, List.mem_map, List.mem_range] at hp
  obtain ⟨col, hcol, rfl⟩ := hp
  exact ⟨hrow, hcol⟩

lemma new_line_accesses_bound :
    ∀ p ∈ new_line_accesses, p.1 < BUFFER_HEIGHT ∧ p.2 < BUFFER_WIDTH := by
  intro p hp
  simp only [new_line_accesses, List.mem_append, List.mem_flatMap, List.mem_range,
    List.mem_range'_1, List.mem_cons, List.not_mem_nil, or_false] at hp
  rcases hp with ⟨row, ⟨hr1, hr2⟩, col, hcol, hpe⟩ | hp
  · simp only [BUFFER_HEIGHT] at hr2 ⊢
    rcases hpe with rfl | rfl
    · exact ⟨by omega, hcol⟩
    · exact ⟨by omega, hcol⟩
  · exact clear_row_accesses_bound _ (by simp [BUFFER_HEIGHT]) p hp

/-!
Claim theorems.
-/

/-- Claim C1 (code divergence, evaluated on the code): the first
`with_writer` call's action advances its writer to column 1, yet the writer
instance constructed for the immediately following call has column 0 again
— writer state set inside one action is not visible to the next action,
because every call builds a fresh `writer_instance` and the lazily created
global `WRITER` (whose attribute differs) is never the instance passed to
any action. -/
theorem C1_no_shared_singleton_state :
    (actWriteA (with_writer_instance mZero)).1.column_position = 1 ∧
    (with_writer_instance (with_writer mZero actWriteA).1).column_position = 0 ∧
    (with_writer_instance mZero).color_code ≠ (WRITER mZero.buffer).color_code :=
  ⟨by decide, rfl, by decide⟩

/-- Claim C2 (code divergence, evaluated on the code): `write_byte 0x0a`
performs no scroll-and-reset, writes the 0x0a byte as a character cell at
(24, 0) and advances the column, while `write_byte 0x2f` (the
forward-slash byte) performs a scroll-and-reset with no cell write even
though the column position is below BUFFER_WIDTH — the code's scroll
trigger is `b'/'`, not the conventional line-feed byte. -/
theorem C2_terminator_divergence :
    (wZero.write_byte 0x0a).scrolls = 0 ∧
    (wZero.write_byte 0x0a).cellWrites = [(24, 0, ⟨0x0a, 0x0e⟩)] ∧
    (wZero.write_byte 0x0a).w.column_position = 1 ∧
    wZero.column_position < BUFFER_WIDTH ∧
    (wZero.write_byte 0x2f).scrolls = 1 ∧
    (wZero.write_byte 0x2f).cellWrites = [] := by
  decide

/-- Claim C3 counterexample: for the printable byte 0x41 arriving when the
column position equals BUFFER_WIDTH, a single `write_byte` call performs
both one scroll-and-reset and one cell write, so the claimed
"exactly one cell write or exactly one scroll-and-reset, never both" is
false at this input. -/
theorem C3_counterexample :
    ¬ (((wFull.write_byte 0x41).scrolls = 0 ∧
        (wFull.write_byte 0x41).cellWrites.length = 1) ∨
       ((wFull.write_byte 0x41).scrolls = 1 ∧
        (wFull.write_byte 0x41).cellWrites = [])) := by
  decide

/-- Claim C3 (amended): for every printable byte and the line-feed byte, a
`write_byte` call on the terminator byte performs exactly one
scroll-and-reset and no cell write; on any other byte it performs exactly
one cell write, preceded by exactly one scroll-and-reset precisely when the
column position has reached BUFFER_WIDTH; and no call has zero effects. -/
theorem C3_write_byte_effects (w : Writer) (byte : Nat)
    (hb : (0x20 ≤ byte ∧ byte ≤ 0x7e) ∨ byte = 0x0a) :
    (byte = 0x2f →
      (w.write_byte byte).scrolls = 1 ∧ (w.write_byte byte).cellWrites = []) ∧
    (byte ≠ 0x2f → w.column_position < BUFFER_WIDTH →
      (w.write_byte byte).scrolls = 0 ∧
      (w.write_byte byte).cellWrites.length = 1) ∧
    (byte ≠ 0x2f → BUFFER_WIDTH ≤ w.column_position →
      (w.write_byte byte).scrolls = 1 ∧
      (w.write_byte byte).cellWrites.length = 1) ∧
    1 ≤ (w.write_byte byte).scrolls + (w.write_byte byte).cellWrites.length := by
  refine ⟨?_, ?_, ?_, ?_⟩
  · intro h2f
    subst h2f
    exact ⟨by rw [write_byte_scrolls]; simp, write_byte_cellWrites_slash w⟩
  · intro h2f hcl
    refine ⟨by rw [write_byte_scrolls]; simp [h2f, Nat.not_le.mpr hcl], ?_⟩
    rw [write_byte_cellWrites w byte h2f]
    rfl
  · intro h2f hcl
    refine ⟨by rw [write_byte_scrolls]; simp [h2f, hcl], ?_⟩
    rw [write_byte_cellWrites w byte h2f]
    rfl
  · by_cases h2f : byte = 0x2f
    · subst h2f
      rw [write_byte_scrolls]
      simp
    · rw [write_byte_cellWrites w byte h2f]
      simp

/-- Claim C3 witness: the amended statement instantiated at a concrete
writer and the printable byte 0x41. -/
theorem C3_write_byte_effects_witness :
    ((0x20 ≤ 0x41 ∧ 0x41 ≤ 0x7e) ∨ (0x41 : Nat) = 0x0a) ∧
    ((0x41 = 0x2f →
      (wZero.write_byte 0x41).scrolls = 1 ∧ (wZero.write_byte 0x41).cellWrites = []) ∧
     ((0x41 : Nat) ≠ 0x2f → wZero.column_position < BUFFER_WIDTH →
      (wZero.write_byte 0x41).scrolls = 0 ∧
      (wZero.write_byte 0x41).cellWrites.length = 1) ∧
     ((0x41 : Nat) ≠ 0x2f → BUFFER_WIDTH ≤ wZero.column_position →
      (wZero.write_byte 0x41).scrolls = 1 ∧
      (wZero.write_byte 0x41).cellWrites.length = 1) ∧
     1 ≤ (wZero.write_byte 0x41).scrolls + (wZero.write_byte 0x41).cellWrites.length) :=
  ⟨by decide, C3_write_byte_effects wZero 0x41 (by decide)⟩

/-- Claim C4: after `new_line` (scroll-and-reset), every row 1 ≤ r <
BUFFER_HEIGHT has been copied into row r − 1, the bottom row consists
entirely of blank cells carrying the writer's current attribute, and the
column position is 0. -/
theorem C4_scroll_and_reset_spec (w : Writer) (r c : Nat)
    (hr1 : 1 ≤ r) (hr2 : r < BUFFER_HEIGHT) (hc : c < BUFFER_WIDTH) :
    w.new_line.buffer (r - 1) c = w.buffer r c ∧
    w.new_line.buffer (BUFFER_HEIGHT - 1) c = ⟨0x20, w.color_code⟩ ∧
    w.new_line.column_position = 0 := by
  refine ⟨?_, ?_, new_line_column w⟩
  · rw [new_line_buffer w (r - 1) c hc]
    have h1 : ¬ r - 1 = BUFFER_HEIGHT - 1 := by
      simp only [BUFFER_HEIGHT] at hr2 ⊢
      omega
    have h2 : r - 1 < BUFFER_HEIGHT - 1 := by
      simp only [BUFFER_HEIGHT] at hr2 ⊢
      omega
    rw [if_neg h1, if_pos h2]
    have h3 : r - 1 + 1 = r := by omega
    rw [h3]
  · rw [new_line_buffer w (BUFFER_HEIGHT - 1) c hc, if_pos rfl]

/-- Claim C4 witness: the scroll specification instantiated at a concrete
writer, row 5 and column 3. -/
theorem C4_scroll_and_reset_spec_witness :
    (1 ≤ 5 ∧ 5 < BUFFER_HEIGHT ∧ 3 < BUFFER_WIDTH) ∧
    (wZero.new_line.buffer (5 - 1) 3 = wZero.buffer 5 3 ∧
     wZero.new_line.buffer (BUFFER_HEIGHT - 1) 3 = ⟨0x20, wZero.color_code⟩ ∧
     wZero.new_line.column_position = 0) :=
  ⟨⟨by decide, by decide, by decide⟩,
   C4_scroll_and_reset_spec wZero 5 3 (by decide) (by decide) (by decide)⟩

/-- Claim C5: from column position 0, eighty writes of the printable byte
0x41 perform no scroll-and-reset, the eighty-first write performs exactly
one, its single direct cell write lands at row BUFFER_HEIGHT − 1, column 0,
and afterwards the bottom row holds the written byte at column 0 and blank
cells everywhere else. -/
theorem C5_line_wrap_after_eighty (w : Writer) (c : Nat) (h : w.column_position = 0)
    (hc1 : 1 ≤ c) (hc2 : c < BUFFER_WIDTH) :
    (write_bytes w (List.replicate 80 0x41)).2 = 0 ∧
    (write_bytes w (List.replicate 81 0x41)).2 = 1 ∧
    ((write_bytes w (List.replicate 80 0x41)).1.write_byte 0x41).scrolls = 1 ∧
    ((write_bytes w (List.replicate 80 0x41)).1.write_byte 0x41).cellWrites
      = [(BUFFER_HEIGHT - 1, 0, ⟨0x41, w.color_code⟩)] ∧
    ((write_bytes w (List.replicate 80 0x41)).1.write_byte 0x41).w.buffer
        (BUFFER_HEIGHT - 1) 0 = ⟨0x41, w.color_code⟩ ∧
    ((write_bytes w (List.replicate 80 0x41)).1.write_byte 0x41).w.buffer
        (BUFFER_HEIGHT - 1) c = ⟨0x20, w.color_code⟩ := by
  obtain ⟨hsc0, hcol80, hcolor80⟩ :=
    write_bytes_replicate 0x41 (by decide) 80 w (by rw [h]; decide)
  rw [h] at hcol80
  have hfull : BUFFER_WIDTH ≤ (write_bytes w (List.replicate 80 0x41)).1.column_position := by
    rw [hcol80]
    decide
  have hb : (0x41 : Nat) ≠ 0x2f := by decide
  refine ⟨hsc0, ?_, ?_, ?_, ?_, ?_⟩
  · have hrep : List.replicate 81 (0x41 : Nat) = List.replicate 80 0x41 ++ [0x41] := by
      rw [show (81 : Nat) = 80 + 1 from rfl, List.replicate_succ']
    rw [hrep, write_bytes_append, hsc0]
    have h1 : (write_bytes (write_bytes w (List.replicate 80 0x41)).1 [0x41]).2 = 1 := by
      show ((write_bytes w (List.replicate 80 0x41)).1.write_byte 0x41).scrolls + 0 = 1
      rw [write_byte_scrolls, if_neg hb, if_pos hfull]
    rw [h1]
  · rw [write_byte_scrolls, if_neg hb, if_pos hfull]
  · rw [write_byte_cellWrites _ _ hb, if_pos hfull, hcolor80]
  · rw [write_byte_buffer_full _ _ hb hfull, writeCell_hit, hcolor80]
  · rw [write_byte_buffer_full _ _ hb hfull]
    have hcne : c ≠ 0 := by omega
    rw [writeCell_ne_col _ _ _ _ _ _ hcne]
    rw [new_line_buffer _ _ _ hc2, if_pos rfl, hcolor80]

/-- Claim C5 witness: the wrap scenario instantiated at a concrete writer
and bottom-row column 1. -/
theorem C5_line_wrap_after_eighty_witness :
    (wZero.column_position = 0 ∧ 1 ≤ 1 ∧ 1 < BUFFER_WIDTH) ∧
    ((write_bytes wZero (List.replicate 80 0x41)).2 = 0 ∧
     (write_bytes wZero (List.replicate 81 0x41)).2 = 1 ∧
     ((write_bytes wZero (List.replicate 80 0x41)).1.write_byte 0x41).scrolls = 1 ∧
     ((write_bytes wZero (List.replicate 80 0x41)).1.write_byte 0x41).cellWrites
       = [(BUFFER_HEIGHT - 1, 0, ⟨0x41, wZero.color_code⟩)] ∧
     ((write_bytes wZero (List.replicate 80 0x41)).1.write_byte 0x41).w.buffer
         (BUFFER_HEIGHT - 1) 0 = ⟨0x41, wZero.color_code⟩ ∧
     ((write_bytes wZero (List.replicate 80 0x41)).1.write_byte 0x41).w.buffer
         (BUFFER_HEIGHT - 1) 1 = ⟨0x20, wZero.color_code⟩) :=
  ⟨⟨rfl, by decide, by decide⟩,
   C5_line_wrap_after_eighty wZero 1 rfl (by decide) (by decide)⟩

/-- Claim C6: `write_string` equals forwarding the pointwise substitution of
the input to `write_byte`; at every position, a byte in [0x20, 0x7e] or the
line-feed byte is forwarded unchanged, and any other byte is replaced by
the placeholder glyph 0xfe at the same position. -/
theorem C6_write_string_placeholder (w : Writer) (s : List Nat) (i : Nat)
    (hi : i < s.length) :
    w.write_string s
      = (s.map substByte).foldl (fun wa byte => (wa.write_byte byte).w) w ∧
    (((0x20 ≤ s.getD i 0 ∧ s.getD i 0 ≤ 0x7e) ∨ s.getD i 0 = 0x0a) →
      (s.map substByte).getD i 0 = s.getD i 0) ∧
    (¬ ((0x20 ≤ s.getD i 0 ∧ s.getD i 0 ≤ 0x7e) ∨ s.getD i 0 = 0x0a) →
      (s.map substByte).getD i 0 = 0xfe) := by
  refine ⟨write_string_eq_foldl_subst s w, ?_, ?_⟩
  · intro hp
    rw [map_substByte_getD s i hi]
    simp only [substByte, if_pos hp]
  · intro hp
    rw [map_substByte_getD s i hi]
    simp only [substByte, if_neg hp]

/-- Claim C6 witness: the substitution property instantiated at a concrete
writer, the string [0x48, 0x00] and position 1 (a non-printable byte). -/
theorem C6_write_string_placeholder_witness :
    (1 < ([0x48, 0x00] : List Nat).length) ∧
    (wZero.write_string [0x48, 0x00]
       = (([0x48, 0x00] : List Nat).map substByte).foldl
           (fun wa byte => (wa.write_byte byte).w) wZero ∧
     (((0x20 ≤ ([0x48, 0x00] : List Nat).getD 1 0 ∧
        ([0x48, 0x00] : List Nat).getD 1 0 ≤ 0x7e) ∨
        ([0x48, 0x00] : List Nat).getD 1 0 = 0x0a) →
       (([0x48, 0x00] : List Nat).map substByte).getD 1 0
         = ([0x48, 0x00] : List Nat).getD 1 0) ∧
     (¬ ((0x20 ≤ ([0x48, 0x00] : List Nat).getD 1 0 ∧
         ([0x48, 0x00] : List Nat).getD 1 0 ≤ 0x7e) ∨
         ([0x48, 0x00] : List Nat).getD 1 0 = 0x0a) →
       (([0x48, 0x00] : List Nat).map substByte).getD 1 0 = 0xfe)) :=
  ⟨by decide, C6_write_string_placeholder wZero [0x48, 0x00] 1 (by decide)⟩

/-- Claim C7: the invariant column_position ≤ BUFFER_WIDTH is preserved by
`write_byte` (for every byte), by `write_string` (for every string), and by
`new_line`. -/
theorem C7_column_position_invariant (w : Writer) (byte : Nat) (s : List Nat)
    (h : w.column_position ≤ BUFFER_WIDTH) :
    (w.write_byte byte).w.column_position ≤ BUFFER_WIDTH ∧
    (w.write_string s).column_position ≤ BUFFER_WIDTH ∧
    w.new_line.column_position ≤ BUFFER_WIDTH :=
  ⟨write_byte_preserves_column_le w byte h,
   write_string_preserves_column_le s w h,
   by rw [new_line_column]; exact Nat.zero_le _⟩

/-- Claim C7 witness: the invariant instantiated at a concrete writer, the
byte 0x41 and the string [0x48, 0x69]. -/
theorem C7_column_position_invariant_witness :
    wZero.column_position ≤ BUFFER_WIDTH ∧
    ((wZero.write_byte 0x41).w.column_position ≤ BUFFER_WIDTH ∧
     (wZero.write_string [0x48, 0x69]).column_position ≤ BUFFER_WIDTH ∧
     wZero.new_line.column_position ≤ BUFFER_WIDTH) :=
  ⟨by decide, C7_column_position_invariant wZero 0x41 [0x48, 0x69] (by decide)⟩

/-- Claim C8: under the precondition column_position ≤ BUFFER_WIDTH, every
buffer index accessed by `write_byte`, by `new_line`, and by `clear_row` on
the bottom row lies strictly inside the BUFFER_HEIGHT × BUFFER_WIDTH grid. -/
theorem C8_accesses_in_bounds (w : Writer) (byte : Nat)
    (h : w.column_position ≤ BUFFER_WIDTH) :
    (∀ p ∈ write_byte_accesses w byte, p.1 < BUFFER_HEIGHT ∧ p.2 < BUFFER_WIDTH) ∧
    (∀ p ∈ new_line_accesses, p.1 < BUFFER_HEIGHT ∧ p.2 < BUFFER_WIDTH) ∧
    (∀ p ∈ clear_row_accesses (BUFFER_HEIGHT - 1),
      p.1 < BUFFER_HEIGHT ∧ p.2 < BUFFER_WIDTH) := by
  refine ⟨?_, new_line_accesses_bound,
    clear_row_accesses_bound _ (by simp [BUFFER_HEIGHT])⟩
  intro p hp
  simp only [write_byte_accesses] at hp
  by_cases hb : byte = 0x2f
  · rw [if_pos hb] at hp
    exact new_line_accesses_bound p hp
  · rw [if_neg hb] at hp
    by_cases hc : BUFFER_WIDTH ≤ w.column_position
    · simp only [if_pos hc, List.mem_append, List.mem_cons, List.not_mem_nil,
        or_false] at hp
      rcases hp with hp | rfl
      · exact new_line_accesses_bound p hp
      · exact ⟨by simp [BUFFER_HEIGHT], by simp [new_line_column, BUFFER_WIDTH]⟩
    · simp only [if_neg hc, List.nil_append, List.mem_cons, List.not_mem_nil,
        or_false] at hp
      subst hp
      exact ⟨by simp [BUFFER_HEIGHT], by omega⟩

/-- Claim C8 witness: the bounds property instantiated at a concrete writer
and the byte 0x41. -/
theorem C8_accesses_in_bounds_witness :
    wZero.column_position ≤ BUFFER_WIDTH ∧
    ((∀ p ∈ write_byte_accesses wZero 0x41,
        p.1 < BUFFER_HEIGHT ∧ p.2 < BUFFER_WIDTH) ∧
     (∀ p ∈ new_line_accesses, p.1 < BUFFER_HEIGHT ∧ p.2 < BUFFER_WIDTH) ∧
     (∀ p ∈ clear_row_accesses (BUFFER_HEIGHT - 1),
        p.1 < BUFFER_HEIGHT ∧ p.2 < BUFFER_WIDTH)) :=
  ⟨by decide, C8_accesses_in_bounds wZero 0x41 (by decide)⟩

/-- Claim C10: every `with_writer` call hands its action a freshly
constructed writer with column position 0 and the Yellow-on-Black attribute;
the instance constructed after any previous call is again at column 0 with
the same attribute (so no column or color change persists between calls),
and the global `WRITER`, whose attribute is LightRed-on-Black, is never the
instance passed to an action. -/
theorem C10_fresh_writer_instance {α : Type} (m : Machine) (f : Writer → Writer × α) :
    (with_writer_instance m).column_position = 0 ∧
    (with_writer_instance m).color_code = ColorCode.new Color.Yellow Color.Black ∧
    (WRITER m.buffer).color_code = ColorCode.new Color.LightRed Color.Black ∧
    (with_writer_instance m).color_code ≠ (WRITER m.buffer).color_code ∧
    (with_writer_instance (with_writer m f).1).column_position = 0 ∧
    (with_writer_instance (with_writer m f).1).color_code
      = ColorCode.new Color.Yellow Color.Black := by
  refine ⟨rfl, by simp [with_writer_instance], by simp [WRITER], ?_, rfl,
    by simp [with_writer, with_writer_instance]⟩
  simp only [with_writer_instance, WRITER]
  decide

end FocusOS
